import Mathlib

/-!
Verification development for the miniature compiler front-end of the
Modular-C-Demos repository (chapters 18–20): the chapter-19 expression
lexer / recursive-descent parser / AST evaluator, the chapter-18 generic
tokenizer, and the chapter-20 symbol table with semantic checks.

The C sources are shallowly embedded: C strings become `List Char`
(the characters before the NUL terminator), scan cursors become the
remaining suffix of the input, machine `int` values become `Int`
(overflow-free on all inputs considered; C `int` overflow is undefined
behaviour), `unsigned int` arithmetic is `Nat` reduced `% 2^32`, and
diagnostics printed with `printf` are modelled as counters carried in
the state.  Recursive C functions whose termination is by consumption
of input are given an explicit fuel parameter; all concrete claims are
evaluated with fuel visibly larger than the input.
-/

set_option maxRecDepth 100000

namespace Ch19

/-- Character classifier matching C `isdigit` on the ASCII range. -/
def isDigitChar (c : Char) : Bool := '0' ≤ c && c ≤ '9'

/-- Token types of the chapter-19 expression lexer (`TokType`). -/
inductive TokType where
  | T_INT | T_PLUS | T_MINUS | T_STAR | T_SLASH
  | T_LPAREN | T_RPAREN | T_EOF | T_ERROR
deriving DecidableEq, Repr

/-- A chapter-19 token (`Tok`): type, integer value (valid for `T_INT`),
and the operator character (`'\0'` otherwise, as in the C initialiser). -/
structure Tok where
  type : TokType
  value : Int
  ch : Char
deriving DecidableEq, Repr

/-- Decimal accumulation loop of `expr_next_token`:
`tok.value = tok.value * 10 + (src[pos] - '0')` over a digit run. -/
def digitsVal (l : List Char) : Int :=
  l.foldl (fun v c => v * 10 + ((c.toNat : Int) - 48)) 0

/-- `expr_next_token` from chapter 19.  The `ExprLexer` cursor
`{src, pos}` is embedded as the remaining suffix `src[pos..]` of the
source; the function returns the token together with the new suffix.
It skips only spaces and tabs, then dispatches on the next character. -/
def expr_next_token (l : List Char) : Tok × List Char :=
  let l := l.dropWhile (fun c => c = ' ' || c = '\t')
  match l with
  | [] => (⟨TokType.T_EOF, 0, '\x00'⟩, [])
  | c :: r =>
    if isDigitChar c then
      (⟨TokType.T_INT, digitsVal ((c :: r).takeWhile isDigitChar), '\x00'⟩,
        (c :: r).dropWhile isDigitChar)
    else
      let t : TokType :=
        if c = '+' then TokType.T_PLUS
        else if c = '-' then TokType.T_MINUS
        else if c = '*' then TokType.T_STAR
        else if c = '/' then TokType.T_SLASH
        else if c = '(' then TokType.T_LPAREN
        else if c = ')' then TokType.T_RPAREN
        else TokType.T_ERROR
      (⟨t, 0, c⟩, r)

/-- AST nodes (`ASTNode`): integer leaf, binary operator node holding
its operator character, and unary negation. -/
inductive ASTNode where
  | int (v : Int)
  | binop (op : Char) (l r : ASTNode)
  | neg (child : ASTNode)
deriving DecidableEq, Repr

/-- Parser state (`Parser`): the lexer cursor, the one-token lookahead,
and a count of the `[PARSE ERROR]` messages printed so far (the C code
reports to stdout; the count is the observable we model). -/
structure Parser where
  lexer : List Char
  current : Tok
  diags : Nat
deriving DecidableEq, Repr

/-- `parser_init`: prime the lookahead with the first token. -/
def parser_init (source : List Char) : Parser :=
  let tl := expr_next_token source
  ⟨tl.2, tl.1, 0⟩

/-- `parser_advance`: fetch the next token into the lookahead. -/
def parser_advance (p : Parser) : Parser :=
  let tl := expr_next_token p.lexer
  ⟨tl.2, tl.1, p.diags⟩

/-- `parser_expect`: consume the lookahead if it has the wanted type,
else print a `[PARSE ERROR] Expected token` message and return 0. -/
def parser_expect (p : Parser) (ty : TokType) : Bool × Parser :=
  if p.current.type = ty then (true, parser_advance p)
  else (false, { p with diags := p.diags + 1 })

mutual

/-- `parse_factor`: `factor → INTEGER | '(' expr ')' | '-' factor`,
with the chapter-19 error recovery (unexpected token → report and
return `IntLiteral(0)`; missing `')'` → report and keep the inner
node).  Fuel only bounds recursion depth; it is never exhausted on the
inputs of the claims. -/
def parse_factor : Nat → Parser → ASTNode × Parser
  | 0, p => (ASTNode.int 0, p)
  | n + 1, p =>
    if p.current.type = TokType.T_MINUS then
      let res := parse_factor n (parser_advance p)
      (ASTNode.neg res.1, res.2)
    else if p.current.type = TokType.T_LPAREN then
      let res := parse_expr n (parser_advance p)
      (res.1, (parser_expect res.2 TokType.T_RPAREN).2)
    else if p.current.type = TokType.T_INT then
      (ASTNode.int p.current.value, parser_advance p)
    else
      (ASTNode.int 0, { p with diags := p.diags + 1 })

/-- Folding loop of `parse_term`: `(('*' | '/') factor)*`. -/
def term_loop : Nat → ASTNode → Parser → ASTNode × Parser
  | 0, left, p => (left, p)
  | n + 1, left, p =>
    if p.current.type = TokType.T_STAR ∨ p.current.type = TokType.T_SLASH then
      let op : Char := if p.current.type = TokType.T_STAR then '*' else '/'
      let res := parse_factor n (parser_advance p)
      term_loop n (ASTNode.binop op left res.1) res.2
    else (left, p)

/-- `parse_term`: `term → factor (('*' | '/') factor)*`. -/
def parse_term : Nat → Parser → ASTNode × Parser
  | 0, p => (ASTNode.int 0, p)
  | n + 1, p =>
    let res := parse_factor n p
    term_loop n res.1 res.2

/-- Folding loop of `parse_expr`: `(('+' | '-') term)*`. -/
def expr_loop : Nat → ASTNode → Parser → ASTNode × Parser
  | 0, left, p => (left, p)
  | n + 1, left, p =>
    if p.current.type = TokType.T_PLUS ∨ p.current.type = TokType.T_MINUS then
      let op : Char := if p.current.type = TokType.T_PLUS then '+' else '-'
      let res := parse_term n (parser_advance p)
      expr_loop n (ASTNode.binop op left res.1) res.2
    else (left, p)

/-- `parse_expr`: `expr → term (('+' | '-') term)*`. -/
def parse_expr : Nat → Parser → ASTNode × Parser
  | 0, p => (ASTNode.int 0, p)
  | n + 1, p =>
    let res := parse_term n p
    expr_loop n res.1 res.2

end

/-- `eval_ast`: post-order evaluation.  Returns the value together with
the number of `[RUNTIME ERROR] Division by zero!` messages printed.
Division is C's truncated division (`Int.tdiv`); on a zero divisor the
node reports and yields 0.  A `BINOP` with an operator outside
`+ - * /` falls through to `return 0`, as in the C `switch`. -/
def eval_ast : ASTNode → Int × Nat
  | ASTNode.int v => (v, 0)
  | ASTNode.binop op l r =>
    let lr := eval_ast l
    let rr := eval_ast r
    if op = '+' then (lr.1 + rr.1, lr.2 + rr.2)
    else if op = '-' then (lr.1 - rr.1, lr.2 + rr.2)
    else if op = '*' then (lr.1 * rr.1, lr.2 + rr.2)
    else if op = '/' then
      if rr.1 = 0 then (0, lr.2 + rr.2 + 1) else (Int.tdiv lr.1 rr.1, lr.2 + rr.2)
    else (0, lr.2 + rr.2)
  | ASTNode.neg child =>
    let cr := eval_ast child
    (-cr.1, cr.2)

/-- `demo_parse_and_eval`'s core: parse the whole expression then
evaluate the AST; fuel is the input length plus a margin, amply
sufficient (every recursion step consumes input). -/
def parse_and_eval (s : String) : Int × Nat :=
  let p := parser_init s.toList
  eval_ast (parse_expr (s.length + 10) p).1

end Ch19

namespace Ch20

/-- The mini type system of chapter 20 (`VarType`). -/
inductive VarType where
  | TYPE_INT | TYPE_FLOAT | TYPE_CHAR
  | TYPE_INT_PTR | TYPE_FLOAT_PTR | TYPE_CHAR_PTR
  | TYPE_VOID | TYPE_UNKNOWN
deriving DecidableEq, Repr

open VarType

/-- `is_pointer_type`. -/
def is_pointer_type (t : VarType) : Bool :=
  t = TYPE_INT_PTR || t = TYPE_FLOAT_PTR || t = TYPE_CHAR_PTR

/-- `is_numeric_type`. -/
def is_numeric_type (t : VarType) : Bool :=
  t = TYPE_INT || t = TYPE_FLOAT || t = TYPE_CHAR

/-- A symbol-table entry (`Symbol`), minus the intrusive hash-chain
pointer: the chain is the bucket list it sits in.  Names are stored
truncated to 31 characters (`strncpy(..., MAX_NAME_LEN - 1)`). -/
structure Symbol where
  name : String
  type : VarType
  scope_level : Nat
  is_initialised : Bool
  line_declared : Int
deriving DecidableEq, Repr

/-- `SymbolTable`: 64 hash buckets with separate chaining (newest at
the head of each chain), the current scope level, the scope save
stack (`scope_stack` / `scope_top`, modelled as a list whose head is
the top, capacity `MAX_SCOPES = 16`), and the counters. -/
structure SymbolTable where
  buckets : List (List Symbol)
  current_scope : Nat
  scope_stack : List Nat
  total_symbols : Nat
  warnings : Nat
  errors : Nat
deriving DecidableEq, Repr

/-- `SYMTAB_SIZE`. -/
def SYMTAB_SIZE : Nat := 64

/-- `MAX_SCOPES`. -/
def MAX_SCOPES : Nat := 16

/-- djb2 hash (`hash_name`), with C `unsigned int` wraparound:
`h = ((h << 5) + h) + (unsigned char)*name`, finally `% SYMTAB_SIZE`. -/
def hash_name (name : String) : Nat :=
  (name.toList.foldl (fun h c => (h * 33 + c.toNat % 256) % 2 ^ 32) 5381)
    % SYMTAB_SIZE

/-- `symtab_init`: all buckets empty, scope 0, empty save stack. -/
def symtab_init : SymbolTable :=
  ⟨List.replicate SYMTAB_SIZE [], 0, [], 0, 0, 0⟩

/-- Chain scan of `symtab_lookup`: keep the first match, replace it
whenever a later same-named entry has a strictly higher scope level. -/
def lookup_chain (name : String) : List Symbol → Option Symbol → Option Symbol
  | [], best => best
  | sym :: rest, best =>
    if sym.name = name then
      match best with
      | none => lookup_chain name rest (some sym)
      | some b =>
        if sym.scope_level > b.scope_level then lookup_chain name rest (some sym)
        else lookup_chain name rest (some b)
    else lookup_chain name rest best

/-- `symtab_lookup`: search the bucket of `name` for the match with the
highest scope level. -/
def symtab_lookup (st : SymbolTable) (name : String) : Option Symbol :=
  lookup_chain name (st.buckets.getD (hash_name name) []) none

/-- `symtab_lookup_current_scope`: first chain entry whose name matches
and whose scope level is the current one. -/
def symtab_lookup_current_scope (st : SymbolTable) (name : String) :
    Option Symbol :=
  (st.buckets.getD (hash_name name) []).find?
    (fun sym => sym.name = name && sym.scope_level = st.current_scope)

/-- `symtab_insert`: reject (error) a redeclaration at the current
scope level; warn when shadowing an outer declaration; otherwise chain
the new symbol at the head of its bucket.  Returns the new table and
the inserted symbol (`NULL` → `none` on rejection). -/
def symtab_insert (st : SymbolTable) (name : String) (type : VarType)
    (initialised : Bool) (line : Int) : SymbolTable × Option Symbol :=
  match symtab_lookup_current_scope st name with
  | some _ => ({ st with errors := st.errors + 1 }, none)
  | none =>
    let warn : Bool :=
      match symtab_lookup st name with
      | some outer => outer.scope_level < st.current_scope
      | none => false
    let st := if warn then { st with warnings := st.warnings + 1 } else st
    let sym : Symbol :=
      ⟨name.take 31, type, st.current_scope, initialised, line⟩
    let idx := hash_name name
    let st :=
      { st with
        buckets := st.buckets.set idx (sym :: st.buckets.getD idx []),
        total_symbols := st.total_symbols + 1 }
    (st, some sym)

/-- `symtab_push_scope`: save the current level when the save stack has
room (`scope_top < MAX_SCOPES`), then increment it unconditionally. -/
def symtab_push_scope (st : SymbolTable) : SymbolTable :=
  let stack :=
    if st.scope_stack.length < MAX_SCOPES then st.current_scope :: st.scope_stack
    else st.scope_stack
  { st with scope_stack := stack, current_scope := st.current_scope + 1 }

/-- `symtab_pop_scope`: unlink and free every symbol at the current
scope level, then restore the saved level if the stack is non-empty. -/
def symtab_pop_scope (st : SymbolTable) : SymbolTable :=
  let removed :=
    (st.buckets.map
      (fun chain => chain.countP (fun s => s.scope_level = st.current_scope))).sum
  let buckets :=
    st.buckets.map (fun chain =>
      chain.filter (fun s => ¬ s.scope_level = st.current_scope))
  match st.scope_stack with
  | top :: rest =>
    { st with buckets := buckets, total_symbols := st.total_symbols - removed,
              current_scope := top, scope_stack := rest }
  | [] =>
    { st with buckets := buckets, total_symbols := st.total_symbols - removed }

/-- Outcome of one `check_assignment_compat` call: which counter (if
any) the call increments. -/
inductive CompatResult where
  | ok | warn | err
deriving DecidableEq, Repr

/-- The decision chain of `check_assignment_compat`, branch for branch:
same type ok; pointer←pointer error; pointer↔numeric error; `float↔int`
and `char↔int` warnings; remaining numeric pairs ok (implicit numeric
conversion); everything else error. -/
def compat_result (lhs_type rhs_type : VarType) : CompatResult :=
  if lhs_type = rhs_type then CompatResult.ok
  else if is_pointer_type lhs_type && is_pointer_type rhs_type then
    CompatResult.err
  else if (is_pointer_type lhs_type && is_numeric_type rhs_type) ||
      (is_numeric_type lhs_type && is_pointer_type rhs_type) then
    CompatResult.err
  else if lhs_type = TYPE_INT && rhs_type = TYPE_FLOAT then CompatResult.warn
  else if lhs_type = TYPE_FLOAT && rhs_type = TYPE_INT then CompatResult.warn
  else if (lhs_type = TYPE_CHAR && rhs_type = TYPE_INT) ||
      (lhs_type = TYPE_INT && rhs_type = TYPE_CHAR) then
    CompatResult.warn
  else if is_numeric_type lhs_type && is_numeric_type rhs_type then
    CompatResult.ok
  else CompatResult.err

/-- `check_assignment_compat`: its sole effect on the table is to bump
the counter selected by the decision chain. -/
def check_assignment_compat (st : SymbolTable) (lhs_type rhs_type : VarType) :
    SymbolTable :=
  match compat_result lhs_type rhs_type with
  | CompatResult.ok => st
  | CompatResult.warn => { st with warnings := st.warnings + 1 }
  | CompatResult.err => { st with errors := st.errors + 1 }

/-- Operations driving the symbol table, for stating properties of
operation sequences (chapter-20 demos interleave these calls). -/
inductive Op where
  | push
  | pop
  | ins (name : String) (type : VarType) (initialised : Bool) (line : Int)
deriving DecidableEq, Repr

/-- Run one operation. -/
def runOp (st : SymbolTable) : Op → SymbolTable
  | Op.push => symtab_push_scope st
  | Op.pop => symtab_pop_scope st
  | Op.ins name type init line => (symtab_insert st name type init line).1

/-- Run a sequence of operations, left to right. -/
def runOps (st : SymbolTable) : List Op → SymbolTable
  | [] => st
  | op :: rest => runOps (runOp st op) rest

/-- Operation sequences that are push/pop-balanced and fit within `k`
free save-stack slots: the sequence never nests pushes more than `k`
deep, and every push is matched by a pop inside the sequence. -/
inductive BoundedBal : Nat → List Op → Prop
  | nil (k : Nat) : BoundedBal k []
  | wrap (k : Nat) (s : List Op) : BoundedBal k s →
      BoundedBal (k + 1) (Op.push :: s ++ [Op.pop])
  | app (k : Nat) (s t : List Op) : BoundedBal k s → BoundedBal k t →
      BoundedBal k (s ++ t)
  | ins (k : Nat) (s : List Op) (name : String) (type : VarType)
      (init : Bool) (line : Int) : BoundedBal k s →
      BoundedBal k (Op.ins name type init line :: s)

end Ch20

namespace Ch18

/-- Whitespace recognised by `lexer_skip_whitespace_comments`. -/
def isWsChar (c : Char) : Bool := c = ' ' || c = '\t' || c = '\n' || c = '\r'

/-- C `isdigit` on ASCII. -/
def isDigitChar (c : Char) : Bool := '0' ≤ c && c ≤ '9'

/-- C `isalpha` on ASCII. -/
def isAlphaChar (c : Char) : Bool :=
  ('a' ≤ c && c ≤ 'z') || ('A' ≤ c && c ≤ 'Z')

/-- C `isalnum(c) || c == '_'`, the identifier-continuation class. -/
def isIdentChar (c : Char) : Bool := isAlphaChar c || isDigitChar c || c = '_'

/-- Token types of the chapter-18 tokenizer (`TokenType`).  `TOK_SLASH`
is declared in the C enum but never produced (the single-character
switch has no `'/'` case). -/
inductive TokenType where
  | TOK_KW_INT | TOK_KW_RETURN | TOK_IDENTIFIER | TOK_INT_LITERAL
  | TOK_PLUS | TOK_MINUS | TOK_STAR | TOK_SLASH | TOK_ASSIGN
  | TOK_SEMICOLON | TOK_LPAREN | TOK_RPAREN | TOK_LBRACE | TOK_RBRACE
  | TOK_EOF | TOK_ERROR
deriving DecidableEq, Repr

/-- A chapter-18 token (`Token`): type, lexeme text (the `char text[64]`
buffer, filled with at most 62 characters plus the terminator), and the
source position recorded after whitespace/comment skipping. -/
structure Token where
  type : TokenType
  text : List Char
  line : Nat
  col : Nat
deriving DecidableEq, Repr

/-- The scan cursor (`Lexer`): the C `{src, pos, line, col}` is
embedded as the remaining suffix `src[pos..]` plus line/column. -/
structure Lexer where
  rest : List Char
  line : Nat
  col : Nat
deriving DecidableEq, Repr

/-- `lexer_init`. -/
def lexer_init (source : List Char) : Lexer := ⟨source, 1, 1⟩

/-- `lexer_advance`: consume one character, updating line/column.  The
C code never calls it at end of input (every call is guarded). -/
def lexer_advance (lx : Lexer) : Lexer :=
  match lx.rest with
  | [] => lx
  | c :: r => if c = '\n' then ⟨r, lx.line + 1, 1⟩ else ⟨r, lx.line, lx.col + 1⟩

/-- Line/column update of `lexer_advance` for one character. -/
def adv (c : Char) (line col : Nat) : Nat × Nat :=
  if c = '\n' then (line + 1, 1) else (line, col + 1)

/-- The `while (!at_end && p(peek)) advance` collection loop used for
integer-literal and identifier runs: returns the consumed run and the
cursor after it. -/
def consumeWhile (p : Char → Bool) : List Char → Nat → Nat → List Char × Lexer
  | [], line, col => ([], ⟨[], line, col⟩)
  | c :: r, line, col =>
    if p c then
      let lc := adv c line col
      let (run, lx) := consumeWhile p r lc.1 lc.2
      (c :: run, lx)
    else ([], ⟨c :: r, line, col⟩)

/-- Inner loop of the `//` case of `lexer_skip_whitespace_comments`:
advance until a newline or end of input (the newline itself is left
for the outer whitespace loop). -/
def skipLine : List Char → Nat → Nat → Lexer
  | [], line, col => ⟨[], line, col⟩
  | c :: r, line, col =>
    if c = '\n' then ⟨c :: r, line, col⟩ else skipLine r line (col + 1)

/-- Inner loop of the `/*` case of `lexer_skip_whitespace_comments`:
advance until just past a closing `*` `/` pair, or to end of input if
the comment is unterminated. -/
def skipBlock : List Char → Nat → Nat → Lexer
  | [], line, col => ⟨[], line, col⟩
  | c :: r, line, col =>
    if c = '*' ∧ r.head? = some '/' then ⟨r.tail, line, col + 2⟩
    else
      let lc := adv c line col
      skipBlock r lc.1 lc.2

theorem skipLine_rest_length_le (l : List Char) (line col : Nat) :
    (skipLine l line col).rest.length ≤ l.length := by
  induction l generalizing line col with
  | nil => simp [skipLine]
  | cons c r ih =>
    simp only [skipLine]
    split
    · simp
    · exact le_trans (ih line (col + 1)) (Nat.le_succ _)

theorem skipBlock_rest_length_le (l : List Char) (line col : Nat) :
    (skipBlock l line col).rest.length ≤ l.length := by
  induction l generalizing line col with
  | nil => simp [skipBlock]
  | cons c r ih =>
    simp only [skipBlock]
    split
    · have : r.tail.length ≤ r.length := by
        cases r <;> simp
      simp only [List.length_cons]
      omega
    · exact le_trans (ih _ _) (Nat.le_succ _)

/-- `lexer_skip_whitespace_comments`: loop while the next characters
are whitespace, a `//` line comment, or a `/*` block comment. -/
def skipWs : List Char → Nat → Nat → Lexer
  | [], line, col => ⟨[], line, col⟩
  | c :: r, line, col =>
    if isWsChar c then
      let lc := adv c line col
      skipWs r lc.1 lc.2
    else if c = '/' ∧ r.head? = some '/' then
      let lx := skipLine r.tail line (col + 2)
      skipWs lx.rest lx.line lx.col
    else if c = '/' ∧ r.head? = some '*' then
      let lx := skipBlock r.tail line (col + 2)
      skipWs lx.rest lx.line lx.col
    else ⟨c :: r, line, col⟩
termination_by l _ _ => l.length
decreasing_by
  · simp
  · have h1 := skipLine_rest_length_le r.tail line (col + 2)
    have h2 : r.tail.length ≤ r.length := by cases r <;> simp
    simp only [List.length_cons]
    omega
  · have h1 := skipBlock_rest_length_le r.tail line (col + 2)
    have h2 : r.tail.length ≤ r.length := by cases r <;> simp
    simp only [List.length_cons]
    omega

/-- `lexer_skip_whitespace_comments` on a cursor. -/
def lexer_skip_whitespace_comments (lx : Lexer) : Lexer :=
  skipWs lx.rest lx.line lx.col

/-- The single-character `switch` of `lexer_next_token` (note: no
`'/'` case, so a lone slash falls through to the error path). -/
def single_char_type (c : Char) : Option TokenType :=
  if c = '+' then some TokenType.TOK_PLUS
  else if c = '-' then some TokenType.TOK_MINUS
  else if c = '*' then some TokenType.TOK_STAR
  else if c = '=' then some TokenType.TOK_ASSIGN
  else if c = ';' then some TokenType.TOK_SEMICOLON
  else if c = '(' then some TokenType.TOK_LPAREN
  else if c = ')' then some TokenType.TOK_RPAREN
  else if c = '\x7b' then some TokenType.TOK_LBRACE
  else if c = '\x7d' then some TokenType.TOK_RBRACE
  else none

/-- `lexer_next_token`: skip whitespace and comments, record the token
position, then emit end-of-input, a single-character token, an integer
literal, a keyword/identifier, or an error token.  The `if (i < 62)`
guard of the collection loops becomes `run.take 62`. -/
def lexer_next_token (lx : Lexer) : Token × Lexer :=
  let lx := lexer_skip_whitespace_comments lx
  match lx.rest with
  | [] => (⟨TokenType.TOK_EOF, "<EOF>".toList, lx.line, lx.col⟩, lx)
  | c :: _ =>
    match single_char_type c with
    | some t => (⟨t, [c], lx.line, lx.col⟩, lexer_advance lx)
    | none =>
      if isDigitChar c then
        let (run, lx') := consumeWhile isDigitChar lx.rest lx.line lx.col
        (⟨TokenType.TOK_INT_LITERAL, run.take 62, lx.line, lx.col⟩, lx')
      else if isAlphaChar c || c = '_' then
        let (run, lx') := consumeWhile isIdentChar lx.rest lx.line lx.col
        let text := run.take 62
        let t :=
          if text = "int".toList then TokenType.TOK_KW_INT
          else if text = "return".toList then TokenType.TOK_KW_RETURN
          else TokenType.TOK_IDENTIFIER
        (⟨t, text, lx.line, lx.col⟩, lx')
      else
        (⟨TokenType.TOK_ERROR, [c], lx.line, lx.col⟩, lexer_advance lx)

/-- Loop body of `tokenize_all`: collect tokens until `TOK_EOF` (which
is stored and counted, as in the C loop) or until the token budget
`max_tokens` is exhausted. -/
def tokenize_go : Lexer → Nat → List Token
  | _, 0 => []
  | lx, n + 1 =>
    let tl := lexer_next_token lx
    if tl.1.type = TokenType.TOK_EOF then [tl.1]
    else tl.1 :: tokenize_go tl.2 n

/-- `tokenize_all`. -/
def tokenize_all (source : List Char) (max_tokens : Nat) : List Token :=
  tokenize_go (lexer_init source) max_tokens

/-- Concatenation of the lexeme texts of a token stream, leaving out
the `"<EOF>"` sentinel text of the end-of-input token (which stands
for no input text). -/
def lexemes : List Token → List Char
  | [] => []
  | t :: ts =>
    if t.type = TokenType.TOK_EOF then lexemes ts else t.text ++ lexemes ts

/-- Body of a block comment as removed by a stripping pass: everything
up to and including the first `*` `/` pair (or all of it when the
comment is unterminated). -/
def dropBlock : List Char → List Char
  | [] => []
  | c :: r =>
    if c = '*' ∧ r.head? = some '/' then r.tail else dropBlock r

theorem dropBlock_length_le (l : List Char) :
    (dropBlock l).length ≤ l.length := by
  induction l with
  | nil => simp [dropBlock]
  | cons c r ih =>
    simp only [dropBlock]
    split
    · have : r.tail.length ≤ r.length := by cases r <;> simp
      simp only [List.length_cons]
      omega
    · exact le_trans ih (Nat.le_succ _)

/-- The spec's reading of "the input with whitespace removed and
comments stripped": scan left to right, drop whitespace characters,
drop `//` comments up to the next newline and `/* ... */` comments up
to the closing delimiter, and keep every other character. -/
def strip : List Char → List Char
  | [] => []
  | c :: r =>
    if isWsChar c then strip r
    else if c = '/' ∧ r.head? = some '/' then
      strip (r.tail.dropWhile (fun x => ¬ x = '\n'))
    else if c = '/' ∧ r.head? = some '*' then strip (dropBlock r.tail)
    else c :: strip r
termination_by l => l.length
decreasing_by
  · simp
  · have h1 : (r.tail.dropWhile (fun x => ¬ x = '\n')).length ≤ r.tail.length :=
      (r.tail.dropWhile_sublist _).length_le
    have h2 : r.tail.length ≤ r.length := by cases r <;> simp
    simp only [List.length_cons]
    omega
  · have h1 := dropBlock_length_le r.tail
    have h2 : r.tail.length ≤ r.length := by cases r <;> simp
    simp only [List.length_cons]
    omega
  · simp

/-- The input ahead begins with whitespace or a comment opener — the
condition under which the skip loop keeps going. -/
def headIsWsOrComment : List Char → Bool
  | [] => false
  | c :: r =>
    isWsChar c || (c == '/' && (r.head? == some '/' || r.head? == some '*'))

/-- Inputs whose contiguous all-identifier-character segments never
exceed 62 characters: no lexeme of the tokenizer gets truncated by its
63-byte text buffer. -/
def BoundedRuns (l : List Char) : Prop :=
  ∀ xs run ys : List Char, l = xs ++ run ++ ys →
    (∀ c ∈ run, isIdentChar c = true) → run.length ≤ 62

end Ch18

namespace Ch20

/-- The assignment-compatibility table as the (amended) claim states
it: identical types ok; differing pointers, or pointer against
numeric, error; `float↔int` and `char↔int` warnings; `char↔float`
accepted as an implicit numeric conversion; every other combination of
distinct types an error. -/
def claimed_compat (lhs_type rhs_type : VarType) : CompatResult :=
  if lhs_type = rhs_type then CompatResult.ok
  else if (lhs_type = VarType.TYPE_INT ∧ rhs_type = VarType.TYPE_FLOAT) ∨
      (lhs_type = VarType.TYPE_FLOAT ∧ rhs_type = VarType.TYPE_INT) ∨
      (lhs_type = VarType.TYPE_CHAR ∧ rhs_type = VarType.TYPE_INT) ∨
      (lhs_type = VarType.TYPE_INT ∧ rhs_type = VarType.TYPE_CHAR) then
    CompatResult.warn
  else if (lhs_type = VarType.TYPE_CHAR ∧ rhs_type = VarType.TYPE_FLOAT) ∨
      (lhs_type = VarType.TYPE_FLOAT ∧ rhs_type = VarType.TYPE_CHAR) then
    CompatResult.ok
  else CompatResult.err

end Ch20

/-- The final table of the C5 shadowing scenario: `x:int` at scope 0
shadowed by `x:float` at scope 1. -/
def shadow_demo_table : Ch20.SymbolTable :=
  (Ch20.symtab_insert (Ch20.symtab_push_scope
    (Ch20.symtab_insert Ch20.symtab_init "x"
      Ch20.VarType.TYPE_INT true 1).1) "x"
    Ch20.VarType.TYPE_FLOAT true 2).1

/-- C1 (counterexample): `char` and `float` are distinct types, the
pair falls in none of the claim's ok/warning cases, yet
`check_assignment_compat` classifies `char ← float` as an implicit
numeric conversion and leaves both counters untouched — not the error
the claim requires for "any other combination of distinct types". -/
theorem compat_char_float_not_error :
    Ch20.VarType.TYPE_CHAR ≠ Ch20.VarType.TYPE_FLOAT ∧
    Ch20.compat_result Ch20.VarType.TYPE_CHAR Ch20.VarType.TYPE_FLOAT =
      Ch20.CompatResult.ok ∧
    Ch20.check_assignment_compat Ch20.symtab_init
        Ch20.VarType.TYPE_CHAR Ch20.VarType.TYPE_FLOAT =
      Ch20.symtab_init := by
  decide

/-- C1 (amended): over the seven types of the claim, the decision of
`check_assignment_compat` is exactly the claimed table with one cell
pair amended — `char↔float` (either direction) is ok, not an error —
and the table decides which counter a call increments: ok leaves the
table unchanged, a warning bumps `warnings`, an error bumps `errors`. -/
theorem compat_table_amended (st : Ch20.SymbolTable)
    (l r : Ch20.VarType) (hl : l ≠ Ch20.VarType.TYPE_UNKNOWN)
    (hr : r ≠ Ch20.VarType.TYPE_UNKNOWN) :
    Ch20.compat_result l r = Ch20.claimed_compat l r ∧
    (Ch20.compat_result l r = Ch20.CompatResult.ok →
      Ch20.check_assignment_compat st l r = st) ∧
    (Ch20.compat_result l r = Ch20.CompatResult.warn →
      Ch20.check_assignment_compat st l r =
        { st with warnings := st.warnings + 1 }) ∧
    (Ch20.compat_result l r = Ch20.CompatResult.err →
      Ch20.check_assignment_compat st l r =
        { st with errors := st.errors + 1 }) := by
  refine ⟨?_, ?_, ?_, ?_⟩
  · cases l <;> cases r <;> simp_all <;> decide
  all_goals
    intro h
    simp [Ch20.check_assignment_compat, h]

/-- Witness for `compat_table_amended` at `int ← float`. -/
theorem compat_table_amended_witness :
    Ch20.compat_result Ch20.VarType.TYPE_INT Ch20.VarType.TYPE_FLOAT =
      Ch20.claimed_compat Ch20.VarType.TYPE_INT Ch20.VarType.TYPE_FLOAT ∧
    (Ch20.compat_result Ch20.VarType.TYPE_INT Ch20.VarType.TYPE_FLOAT =
        Ch20.CompatResult.ok →
      Ch20.check_assignment_compat Ch20.symtab_init
        Ch20.VarType.TYPE_INT Ch20.VarType.TYPE_FLOAT = Ch20.symtab_init) ∧
    (Ch20.compat_result Ch20.VarType.TYPE_INT Ch20.VarType.TYPE_FLOAT =
        Ch20.CompatResult.warn →
      Ch20.check_assignment_compat Ch20.symtab_init
          Ch20.VarType.TYPE_INT Ch20.VarType.TYPE_FLOAT =
        { Ch20.symtab_init with warnings := Ch20.symtab_init.warnings + 1 }) ∧
    (Ch20.compat_result Ch20.VarType.TYPE_INT Ch20.VarType.TYPE_FLOAT =
        Ch20.CompatResult.err →
      Ch20.check_assignment_compat Ch20.symtab_init
          Ch20.VarType.TYPE_INT Ch20.VarType.TYPE_FLOAT =
        { Ch20.symtab_init with errors := Ch20.symtab_init.errors + 1 }) :=
  compat_table_amended Ch20.symtab_init Ch20.VarType.TYPE_INT
    Ch20.VarType.TYPE_FLOAT (by decide) (by decide)

/-- C2: parsing then evaluating honours precedence (`* /` over `+ -`)
and parenthesised grouping: `3 + 4 * 2` evaluates to 11,
`(3 + 4) * 2` to 14, and `((2 + 3) * (4 - 1))` to 15. -/
theorem precedence_examples :
    (Ch19.parse_and_eval "3 + 4 * 2").1 = 11 ∧
    (Ch19.parse_and_eval "(3 + 4) * 2").1 = 14 ∧
    (Ch19.parse_and_eval "((2 + 3) * (4 - 1))").1 = 15 := by
  decide

/-- C3: same-precedence chains group left-associatively and unary
minus is parsed at factor level: `10 - 2 * 3 + 8 / 4` evaluates to 6,
`10 - 3 - 2` to 5 (that is, `(10-3)-2`), and `-5 + 3` to -2. -/
theorem associativity_unary_examples :
    (Ch19.parse_and_eval "10 - 2 * 3 + 8 / 4").1 = 6 ∧
    (Ch19.parse_and_eval "10 - 3 - 2").1 = 5 ∧
    (Ch19.parse_and_eval "-5 + 3").1 = -2 := by
  decide

/-- C4: on every division node whose right operand evaluates to 0,
`eval_ast` reports one division-by-zero diagnostic and yields 0 as the
node's value, and evaluation of the enclosing tree continues (the
evaluator is a total function returning that pair); in particular
parsing and evaluating `10 / 0` yields value 0 with one diagnostic. -/
theorem div_by_zero_yields_zero :
    (∀ l r : Ch19.ASTNode, (Ch19.eval_ast r).1 = 0 →
      Ch19.eval_ast (Ch19.ASTNode.binop '/' l r) =
        (0, (Ch19.eval_ast l).2 + (Ch19.eval_ast r).2 + 1)) ∧
    Ch19.parse_and_eval "10 / 0" = (0, 1) := by
  refine ⟨?_, by decide⟩
  intro l r h
  simp [Ch19.eval_ast, h]

/-- Witness for `div_by_zero_yields_zero` at `10 / 0` as an AST. -/
theorem div_by_zero_yields_zero_witness :
    Ch19.eval_ast (Ch19.ASTNode.binop '/' (Ch19.ASTNode.int 10)
        (Ch19.ASTNode.int 0)) =
      (0, (Ch19.eval_ast (Ch19.ASTNode.int 10)).2 +
        (Ch19.eval_ast (Ch19.ASTNode.int 0)).2 + 1) :=
  div_by_zero_yields_zero.1 (Ch19.ASTNode.int 10) (Ch19.ASTNode.int 0)
    (by decide)

namespace Ch20

theorem lookup_chain_max (name : String) (l : List Symbol) :
    ∀ (best : Option Symbol) (s : Symbol), lookup_chain name l best = some s →
      (∀ t ∈ l, t.name = name → t.scope_level ≤ s.scope_level) ∧
      (∀ b, best = some b → b.scope_level ≤ s.scope_level) ∧
      (best = some s ∨ (s ∈ l ∧ s.name = name)) := by
  induction l with
  | nil =>
    intro best s h
    simp only [lookup_chain] at h
    subst h
    exact ⟨by simp, by simp, Or.inl rfl⟩
  | cons c rest ih =>
    intro best s h
    simp only [lookup_chain] at h
    by_cases hc : c.name = name
    · simp only [hc, if_true] at h
      match best with
      | none =>
        obtain ⟨h1, h2, h3⟩ := ih (some c) s h
        refine ⟨?_, by simp, ?_⟩
        · intro t ht hn
          rcases List.mem_cons.mp ht with rfl | ht'
          · exact h2 t rfl
          · exact h1 t ht' hn
        · rcases h3 with h3 | h3
          · exact Or.inr ⟨List.mem_cons.mpr (Or.inl (by injection h3.symm)),
              by injection h3.symm with e; rw [e]; exact hc⟩
          · exact Or.inr ⟨List.mem_cons.mpr (Or.inr h3.1), h3.2⟩
      | some b =>
        by_cases hgt : c.scope_level > b.scope_level
        · simp only [hgt, if_true] at h
          obtain ⟨h1, h2, h3⟩ := ih (some c) s h
          have hcs : c.scope_level ≤ s.scope_level := h2 c rfl
          refine ⟨?_, ?_, ?_⟩
          · intro t ht hn
            rcases List.mem_cons.mp ht with rfl | ht'
            · exact hcs
            · exact h1 t ht' hn
          · intro b' hb'
            injection hb' with e
            subst e
            omega
          · rcases h3 with h3 | h3
            · exact Or.inr ⟨List.mem_cons.mpr (Or.inl (by injection h3.symm)),
                by injection h3.symm with e; rw [e]; exact hc⟩
            · exact Or.inr ⟨List.mem_cons.mpr (Or.inr h3.1), h3.2⟩
        · simp only [hgt, if_false] at h
          obtain ⟨h1, h2, h3⟩ := ih (some b) s h
          have hbs : b.scope_level ≤ s.scope_level := h2 b rfl
          refine ⟨?_, ?_, ?_⟩
          · intro t ht hn
            rcases List.mem_cons.mp ht with rfl | ht'
            · omega
            · exact h1 t ht' hn
          · intro b' hb'
            injection hb' with e
            subst e
            exact hbs
          · rcases h3 with h3 | h3
            · exact Or.inl h3
            · exact Or.inr ⟨List.mem_cons.mpr (Or.inr h3.1), h3.2⟩
    · simp only [hc, if_false] at h
      obtain ⟨h1, h2, h3⟩ := ih best s h
      refine ⟨?_, h2, ?_⟩
      · intro t ht hn
        rcases List.mem_cons.mp ht with rfl | ht'
        · exact absurd hn hc
        · exact h1 t ht' hn
      · rcases h3 with h3 | h3
        · exact Or.inl h3
        · exact Or.inr ⟨List.mem_cons.mpr (Or.inr h3.1), h3.2⟩

/-- After `symtab_pop_scope`, no bucket chain retains a symbol of the
scope level that was just left. -/
theorem pop_scope_removes (st : SymbolTable) :
    ∀ chain ∈ (symtab_pop_scope st).buckets, ∀ sym ∈ chain,
      sym.scope_level ≠ st.current_scope := by
  intro chain hchain sym hsym
  have hb : chain ∈ st.buckets.map
      (fun ch => ch.filter (fun s => ¬ s.scope_level = st.current_scope)) := by
    simp only [symtab_pop_scope] at hchain
    rcases hstk : st.scope_stack with _ | ⟨top, rest⟩ <;>
      simp only [hstk] at hchain <;> exact hchain
  obtain ⟨ch0, _, rfl⟩ := List.mem_map.mp hb
  have := List.of_mem_filter hsym
  simpa using this

end Ch20

/-- C5: from an empty table — insert `x:int` at scope 0, push a scope,
insert `x:float` at scope 1: the second insert succeeds with a shadow
warning and no error; `lookup "x"` then returns the float entry at
scope level 1; after `pop_scope` it returns the original int entry at
scope level 0.  Moreover, in any table, a successful lookup returns a
chain entry with the queried name whose scope level is maximal among
the same-named entries of its chain, and `pop_scope` removes every
symbol of the exited level from the buckets. -/
theorem scope_shadowing_lookup :
    ((let st1 := (Ch20.symtab_insert Ch20.symtab_init "x"
        Ch20.VarType.TYPE_INT true 1).1
      let st2 := Ch20.symtab_push_scope st1
      let res := Ch20.symtab_insert st2 "x" Ch20.VarType.TYPE_FLOAT true 2
      res.2.isSome ∧ res.1.warnings = 1 ∧ res.1.errors = 0 ∧
        (Ch20.symtab_lookup res.1 "x").map
            (fun s => (s.type, s.scope_level)) =
          some (Ch20.VarType.TYPE_FLOAT, 1) ∧
        (Ch20.symtab_lookup (Ch20.symtab_pop_scope res.1) "x").map
            (fun s => (s.type, s.scope_level)) =
          some (Ch20.VarType.TYPE_INT, 0)) : Prop) ∧
    (∀ (st : Ch20.SymbolTable) (name : String) (s : Ch20.Symbol),
      Ch20.symtab_lookup st name = some s →
        s.name = name ∧
        s ∈ st.buckets.getD (Ch20.hash_name name) [] ∧
        ∀ t ∈ st.buckets.getD (Ch20.hash_name name) [],
          t.name = name → t.scope_level ≤ s.scope_level) ∧
    (∀ st : Ch20.SymbolTable, ∀ chain ∈ (Ch20.symtab_pop_scope st).buckets,
      ∀ sym ∈ chain, sym.scope_level ≠ st.current_scope) := by
  refine ⟨by decide, ?_, fun st => Ch20.pop_scope_removes st⟩
  intro st name s h
  obtain ⟨h1, _, h3⟩ :=
    Ch20.lookup_chain_max name (st.buckets.getD (Ch20.hash_name name) []) none s h
  rcases h3 with h3 | h3
  · cases h3
  · exact ⟨h3.2, h3.1, h1⟩

/-- Witness for `scope_shadowing_lookup`: the lookup-invariant part
applied to the scenario's final two-entry table. -/
theorem scope_shadowing_lookup_witness :
    (⟨"x", Ch20.VarType.TYPE_FLOAT, 1, true, 2⟩ : Ch20.Symbol).name = "x" ∧
    (⟨"x", Ch20.VarType.TYPE_FLOAT, 1, true, 2⟩ : Ch20.Symbol) ∈
      shadow_demo_table.buckets.getD (Ch20.hash_name "x") [] ∧
    (∀ t ∈ shadow_demo_table.buckets.getD (Ch20.hash_name "x") [],
      t.name = "x" →
        t.scope_level ≤
          (⟨"x", Ch20.VarType.TYPE_FLOAT, 1, true, 2⟩ :
            Ch20.Symbol).scope_level) :=
  scope_shadowing_lookup.2.1 shadow_demo_table "x"
    ⟨"x", Ch20.VarType.TYPE_FLOAT, 1, true, 2⟩ (by decide)

/-- C6: inserting a name that already has a symbol at the exact
current scope level reports an "already declared" error — the error
counter is incremented, nothing is inserted (`NULL` result), and the
buckets (hence the previously inserted symbol, with its type, scope
level, initialised flag and declaration line) and the warning counter
are untouched. -/
theorem redeclaration_rejected (st : Ch20.SymbolTable) (name : String)
    (type : Ch20.VarType) (init : Bool) (line : Int) (ex : Ch20.Symbol)
    (h : Ch20.symtab_lookup_current_scope st name = some ex) :
    Ch20.symtab_insert st name type init line =
      ({ st with errors := st.errors + 1 }, none) ∧
    (Ch20.symtab_insert st name type init line).1.buckets = st.buckets ∧
    (Ch20.symtab_insert st name type init line).1.warnings = st.warnings ∧
    (Ch20.symtab_insert st name type init line).2 = none := by
  refine ⟨?_, ?_, ?_, ?_⟩ <;> simp [Ch20.symtab_insert, h]

/-- Witness for `redeclaration_rejected`: re-inserting `y` at scope 0. -/
theorem redeclaration_rejected_witness :
    Ch20.symtab_insert (Ch20.symtab_insert Ch20.symtab_init "y"
        Ch20.VarType.TYPE_INT true 1).1 "y" Ch20.VarType.TYPE_INT true 2 =
      ({ (Ch20.symtab_insert Ch20.symtab_init "y"
          Ch20.VarType.TYPE_INT true 1).1 with
        errors := (Ch20.symtab_insert Ch20.symtab_init "y"
          Ch20.VarType.TYPE_INT true 1).1.errors + 1 }, none) ∧
    (Ch20.symtab_insert (Ch20.symtab_insert Ch20.symtab_init "y"
        Ch20.VarType.TYPE_INT true 1).1 "y"
        Ch20.VarType.TYPE_INT true 2).1.buckets =
      (Ch20.symtab_insert Ch20.symtab_init "y"
        Ch20.VarType.TYPE_INT true 1).1.buckets ∧
    (Ch20.symtab_insert (Ch20.symtab_insert Ch20.symtab_init "y"
        Ch20.VarType.TYPE_INT true 1).1 "y"
        Ch20.VarType.TYPE_INT true 2).1.warnings =
      (Ch20.symtab_insert Ch20.symtab_init "y"
        Ch20.VarType.TYPE_INT true 1).1.warnings ∧
    (Ch20.symtab_insert (Ch20.symtab_insert Ch20.symtab_init "y"
        Ch20.VarType.TYPE_INT true 1).1 "y"
        Ch20.VarType.TYPE_INT true 2).2 = none :=
  redeclaration_rejected _ "y" Ch20.VarType.TYPE_INT true 2
    ⟨"y", Ch20.VarType.TYPE_INT, 0, true, 1⟩ (by decide)

namespace Ch20

theorem runOps_append (st : SymbolTable) (s t : List Op) :
    runOps st (s ++ t) = runOps (runOps st s) t := by
  induction s generalizing st with
  | nil => simp [runOps]
  | cons op rest ih => simp [runOps, ih]

/-- `symtab_insert` never touches the scope level or the save stack. -/
theorem insert_preserves_scope (st : SymbolTable) (name : String)
    (type : VarType) (init : Bool) (line : Int) :
    (symtab_insert st name type init line).1.current_scope =
        st.current_scope ∧
    (symtab_insert st name type init line).1.scope_stack = st.scope_stack := by
  simp only [symtab_insert]
  split
  · simp
  · split <;> simp

/-- Core of C10: a push/pop-balanced operation block that fits within
the free capacity of the save stack leaves the scope level and the
save stack exactly as it found them; in particular (`wrap` case) the
pop matching each push restores the pre-push scope level. -/
theorem balanced_ops_preserve_scope (k : Nat) (s : List Op)
    (hbal : BoundedBal k s) :
    ∀ st : SymbolTable, st.scope_stack.length + k ≤ MAX_SCOPES →
      (runOps st s).current_scope = st.current_scope ∧
      (runOps st s).scope_stack = st.scope_stack := by
  induction hbal with
  | nil k => intro st _; simp [runOps]
  | wrap k s hs ih =>
    intro st hcap
    have hlt : st.scope_stack.length < MAX_SCOPES := by omega
    have hps : (runOp st Op.push).scope_stack =
        st.current_scope :: st.scope_stack := by
      simp [runOp, symtab_push_scope, hlt]
    have hcap' :
        (runOp st Op.push).scope_stack.length + k ≤ MAX_SCOPES := by
      rw [hps]
      simp only [List.length_cons]
      omega
    obtain ⟨hc, hk⟩ := ih (runOp st Op.push) hcap'
    have hstep : runOps st (Op.push :: s ++ [Op.pop]) =
        runOp (runOps (runOp st Op.push) s) Op.pop := by
      show runOps (runOp st Op.push) (s ++ [Op.pop]) = _
      rw [runOps_append]
      simp [runOps]
    rw [hstep]
    have hk' : (runOps (runOp st Op.push) s).scope_stack =
        st.current_scope :: st.scope_stack := hk.trans hps
    simp only [runOp] at hk' ⊢
    simp only [symtab_pop_scope, hk']
    constructor <;> simp
  | app k s t hs ht ihs iht =>
    intro st hcap
    rw [runOps_append]
    obtain ⟨hc1, hk1⟩ := ihs st hcap
    obtain ⟨hc2, hk2⟩ := iht (runOps st s) (by rw [hk1]; exact hcap)
    exact ⟨hc2.trans hc1, hk2.trans hk1⟩
  | ins k s name type init line hs ih =>
    intro st hcap
    have hstep : runOps st (Op.ins name type init line :: s) =
        runOps (runOp st (Op.ins name type init line)) s := rfl
    rw [hstep]
    have hp := insert_preserves_scope st name type init line
    obtain ⟨hc, hk⟩ := ih (runOp st (Op.ins name type init line))
      (by simp only [runOp]; rw [hp.2]; exact hcap)
    refine ⟨?_, ?_⟩
    · rw [hc]; exact hp.1
    · rw [hk]; exact hp.2

end Ch20

/-- C10: the scope save stack holds at most `MAX_SCOPES = 16` levels.
For any balanced block of operations whose push nesting fits within
the remaining capacity of the save stack, each pop restores the scope
level and stack exactly as they were before the matching push.  A push
issued when 16 levels are already saved still increments the scope
level but silently drops the save, and the pop/restore correspondence
then fails: after 17 pushes from an empty table, the next pop lands at
scope 15, not the pre-push value 16. -/
theorem scope_stack_capacity :
    (∀ (k : Nat) (s : List Ch20.Op), Ch20.BoundedBal k s →
      ∀ st : Ch20.SymbolTable,
        st.scope_stack.length + k ≤ Ch20.MAX_SCOPES →
          (Ch20.runOps st s).current_scope = st.current_scope ∧
          (Ch20.runOps st s).scope_stack = st.scope_stack) ∧
    (∀ st : Ch20.SymbolTable,
      Ch20.MAX_SCOPES ≤ st.scope_stack.length →
        Ch20.symtab_push_scope st =
          { st with current_scope := st.current_scope + 1 }) ∧
    ((Ch20.runOps Ch20.symtab_init
        (List.replicate 17 Ch20.Op.push)).current_scope = 17 ∧
      (Ch20.symtab_pop_scope (Ch20.runOps Ch20.symtab_init
        (List.replicate 17 Ch20.Op.push))).current_scope = 15) := by
  refine ⟨fun k s hbal => Ch20.balanced_ops_preserve_scope k s hbal, ?_, ?_⟩
  · intro st h
    have : ¬ st.scope_stack.length < Ch20.MAX_SCOPES := by omega
    simp [Ch20.symtab_push_scope, this]
  · exact ⟨by decide, by decide⟩

/-- Witness for `scope_stack_capacity`: one push/pop pair from the
empty table restores scope level 0 and the empty save stack, and a
16-deep saved stack triggers the save-dropping push. -/
theorem scope_stack_capacity_witness :
    ((Ch20.runOps Ch20.symtab_init [Ch20.Op.push, Ch20.Op.pop]).current_scope =
        Ch20.symtab_init.current_scope ∧
      (Ch20.runOps Ch20.symtab_init
          [Ch20.Op.push, Ch20.Op.pop]).scope_stack =
        Ch20.symtab_init.scope_stack) ∧
    Ch20.symtab_push_scope (Ch20.runOps Ch20.symtab_init
        (List.replicate 17 Ch20.Op.push)) =
      { (Ch20.runOps Ch20.symtab_init (List.replicate 17 Ch20.Op.push)) with
        current_scope := (Ch20.runOps Ch20.symtab_init
          (List.replicate 17 Ch20.Op.push)).current_scope + 1 } :=
  ⟨scope_stack_capacity.1 1 [Ch20.Op.push, Ch20.Op.pop]
      (Ch20.BoundedBal.wrap 0 [] (Ch20.BoundedBal.nil 0)) Ch20.symtab_init
      (by decide),
    scope_stack_capacity.2.1 _ (by decide)⟩

/-- C9: the parser never aborts — in the embedding every parse
function totally returns an `ASTNode` (the C code's non-`NULL`
pointer).  When the lookahead in factor position is none of `-`, `(`
or an integer literal, `parse_factor` reports one "unexpected token"
diagnostic and returns `IntLiteral(0)` with the cursor unmoved; when
the closing `)` of a parenthesised expression is missing,
`parser_expect` reports one diagnostic and `parse_factor` still
returns the already-parsed inner node.  Concretely, `"(3 + 4"` parses
to the `3 + 4` node with exactly one diagnostic. -/
theorem parser_recovery :
    (∀ (n : Nat) (p : Ch19.Parser),
      ¬ p.current.type = Ch19.TokType.T_MINUS →
      ¬ p.current.type = Ch19.TokType.T_LPAREN →
      ¬ p.current.type = Ch19.TokType.T_INT →
        Ch19.parse_factor (n + 1) p =
          (Ch19.ASTNode.int 0, { p with diags := p.diags + 1 })) ∧
    (∀ (n : Nat) (p : Ch19.Parser),
      p.current.type = Ch19.TokType.T_LPAREN →
      ¬ (Ch19.parse_expr n (Ch19.parser_advance p)).2.current.type =
          Ch19.TokType.T_RPAREN →
        Ch19.parse_factor (n + 1) p =
          ((Ch19.parse_expr n (Ch19.parser_advance p)).1,
            { (Ch19.parse_expr n (Ch19.parser_advance p)).2 with
              diags :=
                (Ch19.parse_expr n (Ch19.parser_advance p)).2.diags + 1 })) ∧
    ((Ch19.parse_expr 16 (Ch19.parser_init "(3 + 4".toList)).1 =
        Ch19.ASTNode.binop '+' (Ch19.ASTNode.int 3) (Ch19.ASTNode.int 4) ∧
      (Ch19.parse_expr 16 (Ch19.parser_init "(3 + 4".toList)).2.diags = 1) := by
  refine ⟨?_, ?_, by decide⟩
  · intro n p h1 h2 h3
    simp [Ch19.parse_factor, h1, h2, h3]
  · intro n p h1 h2
    simp [Ch19.parse_factor, h1, Ch19.parser_expect, h2]

/-- Witness for `parser_recovery`: a `+` in factor position triggers
the `IntLiteral(0)` recovery, and `"(3"` (no closing parenthesis)
triggers the missing-`)` recovery. -/
theorem parser_recovery_witness :
    (Ch19.parse_factor 1 (Ch19.parser_init "+".toList) =
      (Ch19.ASTNode.int 0,
        { Ch19.parser_init "+".toList with
          diags := (Ch19.parser_init "+".toList).diags + 1 })) ∧
    (Ch19.parse_factor 4 (Ch19.parser_init "(3".toList) =
      ((Ch19.parse_expr 3
          (Ch19.parser_advance (Ch19.parser_init "(3".toList))).1,
        { (Ch19.parse_expr 3
            (Ch19.parser_advance (Ch19.parser_init "(3".toList))).2 with
          diags := (Ch19.parse_expr 3
            (Ch19.parser_advance (Ch19.parser_init "(3".toList))).2.diags +
              1 })) :=
  ⟨parser_recovery.1 0 (Ch19.parser_init "+".toList)
      (by decide) (by decide) (by decide),
    parser_recovery.2.1 3 (Ch19.parser_init "(3".toList)
      (by decide) (by decide)⟩

namespace Ch18

/-- The skip loop runs until neither whitespace nor a comment opener
is next: its result never starts with either. -/
theorem skipWs_post (l : List Char) (line col : Nat) :
    headIsWsOrComment (skipWs l line col).rest = false := by
  induction l, line, col using skipWs.induct with
  | case1 line col => simp [skipWs, headIsWsOrComment]
  | case2 c r line col hws lc ih =>
    rw [skipWs]
    simp only [if_pos hws]
    exact ih
  | case3 c r line col hws hlc lx ih =>
    rw [skipWs]
    simp only [if_neg hws, if_pos hlc]
    exact ih
  | case4 c r line col hws hlc hbc lx ih =>
    rw [skipWs]
    simp only [if_neg hws, if_neg hlc, if_pos hbc]
    exact ih
  | case5 c r line col hws hlc hbc =>
    rw [skipWs]
    rw [if_neg hws, if_neg hlc, if_neg hbc]
    show headIsWsOrComment (c :: r) = false
    simp only [headIsWsOrComment, Bool.or_eq_false_iff, Bool.and_eq_false_iff]
    constructor
    · simpa using hws
    · by_cases hc : c = '/'
      · subst hc
        right
        rcases hr : r.head? with _ | c'
        · simp
        · have h1 : ¬ c' = '/' := fun h => hlc ⟨rfl, by rw [hr, h]⟩
          have h2 : ¬ c' = '*' := fun h => hbc ⟨rfl, by rw [hr, h]⟩
          simp [h1, h2]
      · left
        simp [hc]

/-- When the input ahead starts with neither whitespace nor a comment
opener, the skip loop is the identity. -/
theorem skipWs_eq_self (l : List Char) (line col : Nat)
    (h : headIsWsOrComment l = false) : skipWs l line col = ⟨l, line, col⟩ := by
  cases l with
  | nil => simp [skipWs]
  | cons c r =>
    simp only [headIsWsOrComment, Bool.or_eq_false_iff, Bool.and_eq_false_iff]
      at h
    obtain ⟨hws, hrest⟩ := h
    rw [skipWs]
    rw [if_neg (by simp [hws]), if_neg, if_neg]
    · rintro ⟨hc, hr⟩
      rcases hrest with h | h
      · exact absurd hc (by simpa using h)
      · rw [hr] at h; simp at h
    · rintro ⟨hc, hr⟩
      rcases hrest with h | h
      · exact absurd hc (by simpa using h)
      · rw [hr] at h; simp at h

/-- The skip pass is idempotent on cursors. -/
theorem skip_idempotent (lx : Lexer) :
    lexer_skip_whitespace_comments (lexer_skip_whitespace_comments lx) =
      lexer_skip_whitespace_comments lx := by
  unfold lexer_skip_whitespace_comments
  rw [skipWs_eq_self _ _ _ (skipWs_post lx.rest lx.line lx.col)]

end Ch18

/-- C7 (counterexample): the chapter-19 expression lexer — the one the
parser/evaluator pipeline uses — does not skip newlines or comments
before producing a token: on `"\n5"` it consumes the newline itself as
a `T_ERROR` token (the claim requires the newline to be skipped and
`T_INT` 5 produced), and on `"//x"` it lexes the first comment slash
as a `T_SLASH` division token. -/
theorem expr_lexer_no_skip_counterexample :
    Ch19.expr_next_token ['\n', '5'] =
      (⟨Ch19.TokType.T_ERROR, 0, '\n'⟩, ['5']) ∧
    (Ch19.expr_next_token ['/', '/', 'x']).1.type = Ch19.TokType.T_SLASH ∧
    ¬ Ch19.TokType.T_ERROR = Ch19.TokType.T_INT := by
  decide

/-- C7 (amended): the chapter-18 tokenizer's `lexer_next_token` first
skips every run of space/tab/newline/carriage-return and every `//` or
`/* ... */` comment, looping until neither whitespace nor a comment
opener is next (its behaviour factors through the skip pass, whose
result never starts with whitespace or a comment opener); the
chapter-19 expression lexer skips only spaces and tabs before
dispatching on the next character. -/
theorem lexer_skip_amended :
    (∀ lx : Ch18.Lexer,
      Ch18.lexer_next_token lx =
        Ch18.lexer_next_token (Ch18.lexer_skip_whitespace_comments lx)) ∧
    (∀ lx : Ch18.Lexer,
      Ch18.headIsWsOrComment
        (Ch18.lexer_skip_whitespace_comments lx).rest = false) ∧
    (∀ l : List Char,
      Ch19.expr_next_token l =
        Ch19.expr_next_token (l.dropWhile (fun c => c = ' ' || c = '\t'))) := by
  refine ⟨?_, ?_, ?_⟩
  · intro lx
    simp only [Ch18.lexer_next_token]
    rw [Ch18.skip_idempotent]
  · intro lx
    exact Ch18.skipWs_post lx.rest lx.line lx.col
  · intro l
    simp only [Ch19.expr_next_token]
    rw [List.dropWhile_idempotent]

namespace Ch18

theorem BoundedRuns.of_suffix {l l' : List Char} (hs : l' <:+ l)
    (hb : BoundedRuns l) : BoundedRuns l' := by
  obtain ⟨t, ht⟩ := hs
  intro xs run ys hdec hident
  exact hb (t ++ xs) run ys (by rw [← ht, hdec]; simp) hident

theorem isDigitChar_isIdent (c : Char) (h : isDigitChar c = true) :
    isIdentChar c = true := by
  simp [isIdentChar, h]

theorem ident_not_ws (c : Char) (h : isIdentChar c = true) :
    isWsChar c = false := by
  by_cases h1 : c = ' '
  · subst h1; exact absurd h (by decide)
  by_cases h2 : c = '\t'
  · subst h2; exact absurd h (by decide)
  by_cases h3 : c = '\n'
  · subst h3; exact absurd h (by decide)
  by_cases h4 : c = '\r'
  · subst h4; exact absurd h (by decide)
  simp [isWsChar, h1, h2, h3, h4]

theorem ident_ne_slash (c : Char) (h : isIdentChar c = true) : ¬ c = '/' :=
  fun he => absurd h (by rw [he]; decide)

theorem ident_headIsWsOrComment (c : Char) (l : List Char)
    (h : isIdentChar c = true) : headIsWsOrComment (c :: l) = false := by
  simp [headIsWsOrComment, ident_not_ws c h, ident_ne_slash c h]

/-- The run/cursor pair produced by the collection loop. -/
theorem consumeWhile_spec (p : Char → Bool) (l : List Char) (line col : Nat) :
    (consumeWhile p l line col).1 = l.takeWhile p ∧
    (consumeWhile p l line col).2.rest = l.dropWhile p := by
  induction l generalizing line col with
  | nil => simp [consumeWhile]
  | cons c r ih =>
    by_cases hp : p c
    · simp only [consumeWhile, if_pos hp, List.takeWhile_cons_of_pos hp,
        List.dropWhile_cons_of_pos hp]
      exact ⟨by rw [(ih _ _).1], (ih _ _).2⟩
    · rw [consumeWhile, if_neg hp,
        List.takeWhile_cons_of_neg (by simpa using hp),
        List.dropWhile_cons_of_neg (by simpa using hp)]
      exact ⟨rfl, rfl⟩

theorem skipLine_rest (l : List Char) (line col : Nat) :
    (skipLine l line col).rest = l.dropWhile (fun c => ¬ c = '\n') := by
  induction l generalizing line col with
  | nil => simp [skipLine]
  | cons c r ih =>
    by_cases hc : c = '\n'
    · subst hc
      simp [skipLine, List.dropWhile_cons_of_neg]
    · rw [skipLine, if_neg hc, ih, List.dropWhile_cons_of_pos (by simpa using hc)]

theorem skipBlock_rest (l : List Char) (line col : Nat) :
    (skipBlock l line col).rest = dropBlock l := by
  induction l generalizing line col with
  | nil => simp [skipBlock, dropBlock]
  | cons c r ih =>
    by_cases hc : c = '*' ∧ r.head? = some '/'
    · rw [skipBlock, if_pos hc, dropBlock, if_pos hc]
    · rw [skipBlock, if_neg hc, dropBlock, if_neg hc, ih]

theorem dropBlock_suffix (l : List Char) : dropBlock l <:+ l := by
  induction l with
  | nil => simp [dropBlock]
  | cons c r ih =>
    rw [dropBlock]
    split
    · exact (List.tail_suffix r).trans (List.suffix_cons c r)
    · exact ih.trans (List.suffix_cons c r)

theorem skipWs_rest_suffix (l : List Char) (line col : Nat) :
    (skipWs l line col).rest <:+ l := by
  induction l, line, col using skipWs.induct with
  | case1 line col => simp [skipWs]
  | case2 c r line col hws lc ih =>
    rw [skipWs]
    simp only [if_pos hws]
    exact ih.trans (List.suffix_cons c r)
  | case3 c r line col hws hlc lx ih =>
    rw [skipWs]
    simp only [if_neg hws, if_pos hlc]
    refine ih.trans (.trans ?_ (List.suffix_cons c r))
    rw [skipLine_rest]
    exact (List.dropWhile_suffix _).trans (List.tail_suffix r)
  | case4 c r line col hws hlc hbc lx ih =>
    rw [skipWs]
    simp only [if_neg hws, if_neg hlc, if_pos hbc]
    refine ih.trans (.trans ?_ (List.suffix_cons c r))
    rw [skipBlock_rest]
    exact (dropBlock_suffix _).trans (List.tail_suffix r)
  | case5 c r line col hws hlc hbc =>
    rw [skipWs]
    rw [if_neg hws, if_neg hlc, if_neg hbc]

/-- Skipping whitespace and comments does not change the stripped
residue of the input. -/
theorem skipWs_rest_strip (l : List Char) (line col : Nat) :
    strip (skipWs l line col).rest = strip l := by
  induction l, line, col using skipWs.induct with
  | case1 line col => simp [skipWs]
  | case2 c r line col hws lc ih =>
    rw [skipWs]
    simp only [if_pos hws]
    rw [ih, strip, if_pos hws]
  | case3 c r line col hws hlc lx ih =>
    rw [skipWs]
    simp only [if_neg hws, if_pos hlc]
    rw [ih, skipLine_rest, strip, if_neg hws, if_pos hlc]
  | case4 c r line col hws hlc hbc lx ih =>
    rw [skipWs]
    simp only [if_neg hws, if_neg hlc, if_pos hbc]
    rw [ih, skipBlock_rest, strip, if_neg hws, if_neg hlc, if_pos hbc]
  | case5 c r line col hws hlc hbc =>
    rw [skipWs]
    rw [if_neg hws, if_neg hlc, if_neg hbc]

/-- A character that starts neither whitespace nor a comment is kept
by the stripping pass. -/
theorem strip_cons_keep (c : Char) (r : List Char)
    (h : headIsWsOrComment (c :: r) = false) : strip (c :: r) = c :: strip r := by
  simp only [headIsWsOrComment, Bool.or_eq_false_iff, Bool.and_eq_false_iff]
    at h
  obtain ⟨hws, hrest⟩ := h
  rw [strip, if_neg (by simp [hws]), if_neg, if_neg]
  · rintro ⟨hc, hr⟩
    rcases hrest with h | h
    · exact absurd hc (by simpa using h)
    · rw [hr] at h; simp at h
  · rintro ⟨hc, hr⟩
    rcases hrest with h | h
    · exact absurd hc (by simpa using h)
    · rw [hr] at h; simp at h

/-- A run of identifier characters passes through the stripping pass
unchanged. -/
theorem strip_append_ident (run rest : List Char)
    (h : ∀ c ∈ run, isIdentChar c = true) :
    strip (run ++ rest) = run ++ strip rest := by
  induction run with
  | nil => simp
  | cons c run' ih =>
    have hc := h c (List.mem_cons_self c run')
    rw [List.cons_append,
      strip_cons_keep c (run' ++ rest) (ident_headIsWsOrComment c _ hc),
      ih (fun x hx => h x (List.mem_cons_of_mem c hx)), List.cons_append]

end Ch18

namespace Ch18

/-- A cursor already past whitespace and comments is fixed by the skip
pass. -/
theorem skip_eq_self (sk : Lexer) (h : headIsWsOrComment sk.rest = false) :
    lexer_skip_whitespace_comments sk = sk := by
  unfold lexer_skip_whitespace_comments
  rw [skipWs_eq_self _ _ _ h]

/-- `lexer_next_token` factors through the skip pass. -/
theorem lexer_next_token_eq_skip (lx : Lexer) :
    lexer_next_token lx =
      lexer_next_token (lexer_skip_whitespace_comments lx) := by
  simp only [lexer_next_token]
  rw [skip_idempotent]

theorem single_char_type_ne_eof (c : Char) (t : TokenType)
    (h : single_char_type c = some t) : ¬ t = TokenType.TOK_EOF := by
  simp only [single_char_type] at h
  split_ifs at h <;> injection h with h <;> subst h <;> decide

theorem lexer_advance_rest (lx : Lexer) (c : Char) (r : List Char)
    (h : lx.rest = c :: r) : (lexer_advance lx).rest = r := by
  simp only [lexer_advance, h]
  split <;> rfl

theorem next_token_at_end (sk : Lexer)
    (hpost : headIsWsOrComment sk.rest = false) (hr : sk.rest = []) :
    lexer_next_token sk =
      (⟨TokenType.TOK_EOF, "<EOF>".toList, sk.line, sk.col⟩, sk) := by
  rw [lexer_next_token_eq_skip, skip_eq_self sk hpost]
  simp only [lexer_next_token, skip_eq_self sk hpost, hr]

theorem next_token_single (sk : Lexer) (c : Char) (r : List Char)
    (t : TokenType) (hpost : headIsWsOrComment sk.rest = false)
    (hr : sk.rest = c :: r) (hsc : single_char_type c = some t) :
    lexer_next_token sk = (⟨t, [c], sk.line, sk.col⟩, lexer_advance sk) := by
  rw [lexer_next_token_eq_skip, skip_eq_self sk hpost]
  simp only [lexer_next_token, skip_eq_self sk hpost, hr, hsc]

theorem next_token_digit (sk : Lexer) (c : Char) (r : List Char)
    (hpost : headIsWsOrComment sk.rest = false) (hr : sk.rest = c :: r)
    (hsc : single_char_type c = none) (hd : isDigitChar c = true) :
    lexer_next_token sk =
      (⟨TokenType.TOK_INT_LITERAL, ((c :: r).takeWhile isDigitChar).take 62,
          sk.line, sk.col⟩,
        (consumeWhile isDigitChar (c :: r) sk.line sk.col).2) := by
  rw [lexer_next_token_eq_skip, skip_eq_self sk hpost]
  simp only [lexer_next_token, skip_eq_self sk hpost, hr, hsc, hd,
    (consumeWhile_spec isDigitChar (c :: r) sk.line sk.col).1, if_pos]

theorem next_token_ident (sk : Lexer) (c : Char) (r : List Char)
    (hpost : headIsWsOrComment sk.rest = false) (hr : sk.rest = c :: r)
    (hsc : single_char_type c = none) (hd : ¬ isDigitChar c = true)
    (ha : (isAlphaChar c || c = '_') = true) :
    lexer_next_token sk =
      (⟨if ((c :: r).takeWhile isIdentChar).take 62 = "int".toList then
          TokenType.TOK_KW_INT
        else if ((c :: r).takeWhile isIdentChar).take 62 = "return".toList then
          TokenType.TOK_KW_RETURN
        else TokenType.TOK_IDENTIFIER,
          ((c :: r).takeWhile isIdentChar).take 62, sk.line, sk.col⟩,
        (consumeWhile isIdentChar (c :: r) sk.line sk.col).2) := by
  rw [lexer_next_token_eq_skip, skip_eq_self sk hpost]
  simp only [lexer_next_token, skip_eq_self sk hpost, hr, hsc, hd, ha,
    (consumeWhile_spec isIdentChar (c :: r) sk.line sk.col).1, if_pos,
    if_neg, if_false, Bool.false_eq_true]

theorem tokenize_go_step_eof (lx lx' : Lexer) (m : Nat) (tok : Token)
    (h : lexer_next_token lx = (tok, lx'))
    (he : tok.type = TokenType.TOK_EOF) :
    tokenize_go lx (m + 1) = [tok] := by
  rw [tokenize_go, h]
  show (if tok.type = TokenType.TOK_EOF then [tok]
    else tok :: tokenize_go lx' m) = _
  rw [if_pos he]

theorem tokenize_go_step_cons (lx lx' : Lexer) (m : Nat) (tok : Token)
    (h : lexer_next_token lx = (tok, lx'))
    (hne : ¬ tok.type = TokenType.TOK_EOF) :
    tokenize_go lx (m + 1) = tok :: tokenize_go lx' m := by
  rw [tokenize_go, h]
  show (if tok.type = TokenType.TOK_EOF then [tok]
    else tok :: tokenize_go lx' m) = _
  rw [if_neg hne]

theorem lexemes_cons (t : Token) (ts : List Token)
    (h : ¬ t.type = TokenType.TOK_EOF) :
    lexemes (t :: ts) = t.text ++ lexemes ts := by
  rw [lexemes, if_neg h]

theorem lexemes_eof_single (tok : Token)
    (he : tok.type = TokenType.TOK_EOF) : lexemes [tok] = [] := by
  rw [lexemes, if_pos he, lexemes]

theorem next_token_error (sk : Lexer) (c : Char) (r : List Char)
    (hpost : headIsWsOrComment sk.rest = false) (hr : sk.rest = c :: r)
    (hsc : single_char_type c = none) (hd : ¬ isDigitChar c = true)
    (ha : ¬ (isAlphaChar c || c = '_') = true) :
    lexer_next_token sk =
      (⟨TokenType.TOK_ERROR, [c], sk.line, sk.col⟩, lexer_advance sk) := by
  rw [lexer_next_token_eq_skip, skip_eq_self sk hpost]
  simp only [lexer_next_token, skip_eq_self sk hpost, hr, hsc, hd, ha,
    if_neg, if_false, Bool.false_eq_true]

end Ch18

namespace Ch18

theorem alpha_underscore_isIdent (c : Char)
    (h : (isAlphaChar c || c = '_') = true) : isIdentChar c = true := by
  simp only [isIdentChar, Bool.or_eq_true] at *
  tauto

/-- Core of the lexer round trip: with enough token budget, the
concatenated lexemes of the token stream are exactly the stripped
input, provided no identifier/integer run overflows the 62-character
lexeme buffer. -/
theorem tokenize_go_strip :
    ∀ (n : Nat) (lx : Lexer), lx.rest.length < n → BoundedRuns lx.rest →
      lexemes (tokenize_go lx n) = strip lx.rest := by
  intro n
  induction n with
  | zero => intro lx h _; omega
  | succ m ih =>
    intro lx hlen hbnd
    have hsuf : (lexer_skip_whitespace_comments lx).rest <:+ lx.rest :=
      skipWs_rest_suffix lx.rest lx.line lx.col
    have hstr :
        strip (lexer_skip_whitespace_comments lx).rest = strip lx.rest :=
      skipWs_rest_strip lx.rest lx.line lx.col
    have hlen2 :
        (lexer_skip_whitespace_comments lx).rest.length ≤ lx.rest.length :=
      hsuf.sublist.length_le
    have hbnd2 : BoundedRuns (lexer_skip_whitespace_comments lx).rest :=
      BoundedRuns.of_suffix hsuf hbnd
    have hpost :
        headIsWsOrComment (lexer_skip_whitespace_comments lx).rest = false :=
      skipWs_post lx.rest lx.line lx.col
    rw [← hstr]
    rcases hr : (lexer_skip_whitespace_comments lx).rest with _ | ⟨c, r⟩
    · rw [tokenize_go_step_eof lx _ m _
          ((lexer_next_token_eq_skip lx).trans (next_token_at_end _ hpost hr))
          rfl,
        lexemes_eof_single _ rfl, strip]
    · have hlt : r.length < m := by
        have h1 : (c :: r).length ≤ lx.rest.length := hr ▸ hlen2
        simp only [List.length_cons] at h1
        omega
      have hbndcr : BoundedRuns (c :: r) := hr ▸ hbnd2
      have hpostcr : headIsWsOrComment (c :: r) = false := hr ▸ hpost
      rcases hsc : single_char_type c with _ | t
      · by_cases hd : isDigitChar c = true
        · -- integer literal
          have hident : ∀ x ∈ (c :: r).takeWhile isDigitChar,
              isIdentChar x = true :=
            fun x hx => isDigitChar_isIdent x (List.mem_takeWhile_imp hx)
          have hb62 : ((c :: r).takeWhile isDigitChar).length ≤ 62 :=
            hbndcr [] _ ((c :: r).dropWhile isDigitChar)
              (by rw [List.nil_append, List.takeWhile_append_dropWhile]) hident
          have hrest : (consumeWhile isDigitChar (c :: r)
              (lexer_skip_whitespace_comments lx).line
              (lexer_skip_whitespace_comments lx).col).2.rest =
              (c :: r).dropWhile isDigitChar :=
            (consumeWhile_spec _ _ _ _).2
          have hlen3 : ((c :: r).dropWhile isDigitChar).length < m := by
            rw [List.dropWhile_cons_of_pos hd]
            exact lt_of_le_of_lt (List.dropWhile_suffix _).sublist.length_le hlt
          have hbnd3 : BoundedRuns ((c :: r).dropWhile isDigitChar) :=
            BoundedRuns.of_suffix (List.dropWhile_suffix _) hbndcr
          rw [tokenize_go_step_cons lx _ m _
              ((lexer_next_token_eq_skip lx).trans
                (next_token_digit _ c r hpost hr hsc hd)) (by simp),
            lexemes_cons _ _ (by simp)]
          show ((c :: r).takeWhile isDigitChar).take 62 ++
              lexemes (tokenize_go (consumeWhile isDigitChar (c :: r)
                (lexer_skip_whitespace_comments lx).line
                (lexer_skip_whitespace_comments lx).col).2 m) =
            strip (c :: r)
          rw [ih _ (by rw [hrest]; exact hlen3) (by rw [hrest]; exact hbnd3),
            hrest, List.take_of_length_le hb62]
          conv_rhs => rw [← List.takeWhile_append_dropWhile (p := isDigitChar)
            (l := c :: r)]
          rw [strip_append_ident _ _ hident]
        · by_cases ha : (isAlphaChar c || c = '_') = true
          · -- keyword or identifier
            have hident : ∀ x ∈ (c :: r).takeWhile isIdentChar,
                isIdentChar x = true :=
              fun x hx => List.mem_takeWhile_imp hx
            have hb62 : ((c :: r).takeWhile isIdentChar).length ≤ 62 :=
              hbndcr [] _ ((c :: r).dropWhile isIdentChar)
                (by rw [List.nil_append, List.takeWhile_append_dropWhile])
                hident
            have hrest : (consumeWhile isIdentChar (c :: r)
                (lexer_skip_whitespace_comments lx).line
                (lexer_skip_whitespace_comments lx).col).2.rest =
                (c :: r).dropWhile isIdentChar :=
              (consumeWhile_spec _ _ _ _).2
            have hlen3 : ((c :: r).dropWhile isIdentChar).length < m := by
              rw [List.dropWhile_cons_of_pos (alpha_underscore_isIdent c ha)]
              exact lt_of_le_of_lt (List.dropWhile_suffix _).sublist.length_le
                hlt
            have hbnd3 : BoundedRuns ((c :: r).dropWhile isIdentChar) :=
              BoundedRuns.of_suffix (List.dropWhile_suffix _) hbndcr
            rw [tokenize_go_step_cons lx _ m _
                ((lexer_next_token_eq_skip lx).trans
                  (next_token_ident _ c r hpost hr hsc hd ha))
                (by split_ifs <;> simp),
              lexemes_cons _ _ (by split_ifs <;> simp)]
            show ((c :: r).takeWhile isIdentChar).take 62 ++
                lexemes (tokenize_go (consumeWhile isIdentChar (c :: r)
                  (lexer_skip_whitespace_comments lx).line
                  (lexer_skip_whitespace_comments lx).col).2 m) =
              strip (c :: r)
            rw [ih _ (by rw [hrest]; exact hlen3) (by rw [hrest]; exact hbnd3),
              hrest, List.take_of_length_le hb62]
            conv_rhs => rw [← List.takeWhile_append_dropWhile
              (p := isIdentChar) (l := c :: r)]
            rw [strip_append_ident _ _ hident]
          · -- unrecognised character
            have hadv : (lexer_advance
                (lexer_skip_whitespace_comments lx)).rest = r :=
              lexer_advance_rest _ c r hr
            have hbnd3 : BoundedRuns r :=
              BoundedRuns.of_suffix (List.suffix_cons c r) hbndcr
            rw [tokenize_go_step_cons lx _ m _
                ((lexer_next_token_eq_skip lx).trans
                  (next_token_error _ c r hpost hr hsc hd ha)) (by simp),
              lexemes_cons _ _ (by simp)]
            show [c] ++ lexemes (tokenize_go (lexer_advance
                (lexer_skip_whitespace_comments lx)) m) = strip (c :: r)
            rw [ih _ (by rw [hadv]; exact hlt) (by rw [hadv]; exact hbnd3),
              hadv, strip_cons_keep c r hpostcr]
            rfl
      · -- single-character token
        have hadv : (lexer_advance
            (lexer_skip_whitespace_comments lx)).rest = r :=
          lexer_advance_rest _ c r hr
        have hbnd3 : BoundedRuns r :=
          BoundedRuns.of_suffix (List.suffix_cons c r) hbndcr
        rw [tokenize_go_step_cons lx _ m _
            ((lexer_next_token_eq_skip lx).trans
              (next_token_single _ c r t hpost hr hsc))
            (single_char_type_ne_eof c t hsc),
          lexemes_cons _ _ (single_char_type_ne_eof c t hsc)]
        show [c] ++ lexemes (tokenize_go (lexer_advance
            (lexer_skip_whitespace_comments lx)) m) = strip (c :: r)
        rw [ih _ (by rw [hadv]; exact hlt) (by rw [hadv]; exact hbnd3),
          hadv, strip_cons_keep c r hpostcr]
        rfl

end Ch18

namespace Ch18

/-- An input that fits the lexeme buffer outright has bounded runs. -/
theorem BoundedRuns_of_short (l : List Char) (h : l.length ≤ 62) :
    BoundedRuns l := by
  intro xs run ys hdec _
  rw [hdec] at h
  simp only [List.length_append] at h
  omega

end Ch18

/-- C8 (counterexample): a 63-character identifier is made of tokens
of the supported set, yet its lexeme is truncated to the 62 characters
the `char text[64]` buffer collects (`if (i < 62)`), so concatenating
the lexemes yields 62 `a`s while the input with whitespace removed and
comments stripped is all 63 — the round trip fails. -/
theorem roundtrip_truncation_counterexample :
    Ch18.lexemes (Ch18.tokenize_all (List.replicate 63 'a') 256) =
      List.replicate 62 'a' ∧
    Ch18.strip (List.replicate 63 'a') = List.replicate 63 'a' ∧
    ¬ (List.replicate 62 'a' : List Char) = List.replicate 63 'a' := by
  refine ⟨?_, ?_, by decide⟩
  · simp [Ch18.tokenize_all, Ch18.tokenize_go, Ch18.lexer_next_token,
      Ch18.lexer_init, Ch18.lexer_skip_whitespace_comments, Ch18.skipWs,
      Ch18.skipLine, Ch18.skipBlock, Ch18.consumeWhile, Ch18.single_char_type,
      Ch18.isWsChar, Ch18.isDigitChar, Ch18.isAlphaChar, Ch18.isIdentChar,
      Ch18.adv, Ch18.lexer_advance, Ch18.lexemes, List.replicate]
  · simp [Ch18.strip, Ch18.isWsChar, List.replicate]

/-- C8 (amended): for every input string in which no maximal run of
identifier/digit characters exceeds 62 characters (so no lexeme is
truncated by the 63-byte text buffer), and with a token budget of at
least the input length plus one, concatenating the lexeme texts of the
token stream produced by `tokenize_all` (the `"<EOF>"` sentinel text
of the final end-of-input token excluded) reproduces the input with
whitespace removed and comments stripped. -/
theorem lexer_roundtrip_amended (input : List Char)
    (hb : Ch18.BoundedRuns input) :
    Ch18.lexemes (Ch18.tokenize_all input (input.length + 1)) =
      Ch18.strip input :=
  Ch18.tokenize_go_strip (input.length + 1) (Ch18.lexer_init input)
    (by simp [Ch18.lexer_init]) hb

/-- Witness for `lexer_roundtrip_amended` on `"int x = 42; // k"`. -/
theorem lexer_roundtrip_amended_witness :
    Ch18.lexemes (Ch18.tokenize_all "int x = 42; // k".toList
        ("int x = 42; // k".toList.length + 1)) =
      Ch18.strip "int x = 42; // k".toList :=
  lexer_roundtrip_amended "int x = 42; // k".toList
    (Ch18.BoundedRuns_of_short _ (by decide))
